import Mathlib

/-!
Shallow embedding of the turborepo core (Go sources under cli/internal)
used to settle the specification claims: the global hasher environment-mode
policy, run exit-code aggregation, task-graph persistent-task validation,
cache tar restoration, turbo.json pipeline normalization, task output modes,
the local filesystem cache, output sorting, the asynchronous cache wrapper,
and the single-package dry-run projection.
-/

namespace Spec2Proof

/-! ## Shared helpers: Go string ordering and sort.Strings -/

/-- Lexicographic comparison of character lists by code point, mirroring the
byte-lexicographic order used by the Go standard library on UTF-8 strings. -/
def charListLE : List Char → List Char → Bool
  | [], _ => true
  | _ :: _, [] => false
  | a :: as, b :: bs =>
    if a.val < b.val then true
    else if b.val < a.val then false
    else charListLE as bs

/-- String comparison used by sort.Strings, on the underlying characters. -/
def strLE (a b : String) : Bool := charListLE a.data b.data

/-- sort.Strings: sort a list of strings in ascending lexicographic order. -/
def sortStrings (l : List String) : List String :=
  List.insertionSort (fun a b => strLE a b = true) l

theorem mem_sortStrings (a : String) (l : List String) :
    a ∈ sortStrings l ↔ a ∈ l :=
  (List.perm_insertionSort _ l).mem_iff

/-- util.Set.Add on the underlying key list: a Go map keyed by string, kept
here as a duplicate-free list in insertion order. -/
def setAdd (s : List String) (x : String) : List String :=
  if x ∈ s then s else s ++ [x]

theorem mem_setAdd (s : List String) (x y : String) :
    y ∈ setAdd s x ↔ y ∈ s ∨ y = x := by
  unfold setAdd
  by_cases h : x ∈ s
  · simp only [if_pos h, List.mem_append]
    constructor
    · exact fun hy => Or.inl hy
    · rintro (hy | rfl)
      · exact hy
      · exact h
  · simp [if_neg h]

/-! ## C1: run/global_hash.go, the global hash environment-mode policy -/

/-- util.EnvMode. The util package is not under src; the spec gives the
environment mode enum as infer, loose, strict. -/
inductive EnvMode where
  | Infer
  | Loose
  | Strict
deriving DecidableEq, Repr

/-- Modelled from the spec: env.DetailedMap (the env package is not under
src). Only its All map of variable names to values feeds the global hash. -/
structure DetailedMap where
  All : List (String × String)
deriving DecidableEq, Repr

/-- Modelled from the spec: EnvironmentVariableMap.ToHashable renders the
variable map as sorted name=value entries. -/
def toHashablePairs (m : List (String × String)) : List String :=
  sortStrings (m.map (fun p => p.1 ++ "=" ++ p.2))

/-- GlobalHashableInputs from run/global_hash.go. The envVarPassthroughs Go
slice may be nil (none here) or a concrete, possibly empty, list (some). -/
structure GlobalHashableInputs where
  globalFileHashMap : List (String × String)
  rootExternalDepsHash : String
  envVars : DetailedMap
  globalCacheKey : String
  envVarPassthroughs : Option (List String)
  envMode : EnvMode
  frameworkInference : Bool
deriving DecidableEq, Repr

/-- globalHashable from run/global_hash.go: the structure actually handed to
fs.HashObject, with the env var map already rendered to hashable pairs. -/
structure globalHashable where
  globalFileHashMap : List (String × String)
  rootExternalDepsHash : String
  envVars : List String
  globalCacheKey : String
  envVarPassthroughs : Option (List String)
  envMode : EnvMode
  frameworkInference : Bool
deriving DecidableEq, Repr

/-- calculateGlobalHash from run/global_hash.go. fs.HashObject is not under
src; it is a pure function of the hashable structure, taken here as the
parameter H. -/
def calculateGlobalHash (H : globalHashable → String)
    (full : GlobalHashableInputs) : String :=
  H { globalFileHashMap := full.globalFileHashMap
      rootExternalDepsHash := full.rootExternalDepsHash
      envVars := toHashablePairs full.envVars.All
      globalCacheKey := full.globalCacheKey
      envVarPassthroughs := full.envVarPassthroughs
      envMode := full.envMode
      frameworkInference := full.frameworkInference }

/-- calculateGlobalHashFromHashableInputs from run/global_hash.go: resolve
the environment mode policy, then hash. -/
def calculateGlobalHashFromHashableInputs (H : globalHashable → String)
    (full : GlobalHashableInputs) : String :=
  match full.envMode with
  | EnvMode.Infer =>
    match full.envVarPassthroughs with
    | some _ =>
      -- any passThru config, even an empty array, resolves infer to strict
      calculateGlobalHash H { full with envMode := EnvMode.Strict }
    | none => calculateGlobalHash H full
  | EnvMode.Loose =>
    -- remove the passthroughs from hash consideration when explicitly loose
    calculateGlobalHash H { full with envVarPassthroughs := none }
  | EnvMode.Strict =>
    match full.envVarPassthroughs with
    | none => calculateGlobalHash H { full with envVarPassthroughs := some [] }
    | some _ => calculateGlobalHash H full

/-- C1: for every choice of the underlying object hash, the loose-mode global
hash is unchanged by envVarPassthroughs; the strict-mode hash of a nil
passthrough list equals that of the empty list; and the infer-mode hash of a
non-nil passthrough list equals the strict-mode hash of the same inputs. -/
theorem c1_global_hash_env_mode_policy (H : globalHashable → String) :
    (∀ (a : GlobalHashableInputs) (p q : Option (List String)),
      calculateGlobalHashFromHashableInputs H
          { a with envMode := EnvMode.Loose, envVarPassthroughs := p }
        = calculateGlobalHashFromHashableInputs H
          { a with envMode := EnvMode.Loose, envVarPassthroughs := q })
    ∧ (∀ a : GlobalHashableInputs,
      calculateGlobalHashFromHashableInputs H
          { a with envMode := EnvMode.Strict, envVarPassthroughs := none }
        = calculateGlobalHashFromHashableInputs H
          { a with envMode := EnvMode.Strict, envVarPassthroughs := some [] })
    ∧ (∀ (a : GlobalHashableInputs) (p : List String),
      calculateGlobalHashFromHashableInputs H
          { a with envMode := EnvMode.Infer, envVarPassthroughs := some p }
        = calculateGlobalHashFromHashableInputs H
          { a with envMode := EnvMode.Strict, envVarPassthroughs := some p }) := by
  refine ⟨fun a p q => rfl, fun a => rfl, fun a p => rfl⟩

/-! ## C2: exit-code aggregation in RealRun and in run.go executeTasks -/

/-- An element of the error list returned by engine.Execute: either a child
process exit (process.ChildExit with its possibly negative exit code) or any
other error. -/
inductive RunError where
  | childExit (code : Int)
  | other
deriving DecidableEq, Repr

/-- One step of the exit-code loop in RealRun: take the absolute value of a
child exit code and keep the running maximum; a non-exit error bumps an
aggregate of 0 to 1. -/
def realRunStep (exitCode : Int) (e : RunError) : Int :=
  match e with
  | RunError.childExit c =>
    let childExit := if c < 0 then -c else c
    if childExit > exitCode then childExit else exitCode
  | RunError.other => if exitCode == 0 then 1 else exitCode

/-- The aggregate exit code computed by the error loop of RealRun. -/
def realRunExitCode (errs : List RunError) : Int := errs.foldl realRunStep 0

/-- One step of the exit-code loop of executeTasks in run.go: the signed exit
code is compared against the running maximum and no absolute value is
taken. -/
def executeTasksStep (exitCode : Int) (e : RunError) : Int :=
  match e with
  | RunError.childExit c => if c > exitCode then c else exitCode
  | RunError.other => if exitCode == 0 then 1 else exitCode

/-- The aggregate exit code computed by the error loop of executeTasks in
run.go. -/
def executeTasksExitCode (errs : List RunError) : Int :=
  errs.foldl executeTasksStep 0

/-- Greatest absolute value of the child exit codes in an error list. -/
def maxAbsChild : List RunError → Int
  | [] => 0
  | RunError.childExit c :: rest =>
    max (if c < 0 then -c else c) (maxAbsChild rest)
  | RunError.other :: rest => maxAbsChild rest

/-- Whether the error list contains an error that is not a child exit. -/
def hasOtherError (errs : List RunError) : Bool :=
  errs.any (fun e => match e with
    | RunError.other => true
    | RunError.childExit _ => false)

theorem maxAbsChild_nonneg (l : List RunError) : 0 ≤ maxAbsChild l := by
  induction l with
  | nil => exact le_refl 0
  | cons e rest ih =>
    cases e with
    | childExit c => exact le_trans ih (le_max_right _ _)
    | other => exact ih

theorem foldl_realRunStep_of_pos (l : List RunError) :
    ∀ acc : Int, 1 ≤ acc →
      List.foldl realRunStep acc l = max acc (maxAbsChild l) := by
  induction l with
  | nil =>
    intro acc hacc
    have h0 : maxAbsChild [] = 0 := rfl
    rw [List.foldl_nil, h0]
    exact (max_eq_left (le_trans zero_le_one hacc)).symm
  | cons e rest ih =>
    intro acc hacc
    cases e with
    | childExit c =>
      rw [List.foldl_cons]
      have hstep : realRunStep acc (RunError.childExit c)
          = max acc (if c < 0 then -c else c) := by
        simp only [realRunStep, max_def]
        split
        · split
          · omega
          · omega
        · split
          · omega
          · omega
      rw [hstep, ih _ (le_trans hacc (le_max_left _ _))]
      rw [maxAbsChild]
      rw [max_assoc]
    | other =>
      rw [List.foldl_cons]
      have hne : (acc == 0) = false := by
        simp only [beq_eq_false_iff_ne]
        omega
      have hstep : realRunStep acc RunError.other = acc := by
        simp [realRunStep, hne]
      rw [hstep, ih _ hacc, maxAbsChild]

/-- The RealRun aggregate exit code is the maximum absolute child exit code,
raised to at least 1 when any non-exit error occurred, and 0 when the error
list is empty of failures. -/
theorem realRunExitCode_spec (errs : List RunError) :
    realRunExitCode errs
      = if hasOtherError errs
        then max 1 (maxAbsChild errs)
        else maxAbsChild errs := by
  induction errs with
  | nil => rfl
  | cons e rest ih =>
    cases e with
    | childExit c =>
      set c0 : Int := if c < 0 then -c else c with hc0
      have hc0nn : 0 ≤ c0 := by rw [hc0]; split <;> omega
      have hstep : realRunStep 0 (RunError.childExit c) = c0 := by
        simp only [realRunStep, ← hc0]
        split
        · rfl
        · omega
      rcases eq_or_lt_of_le hc0nn with hz | hpos
      · -- the child exited with code 0, the accumulator stays 0
        have hfold : realRunExitCode (RunError.childExit c :: rest)
            = realRunExitCode rest := by
          unfold realRunExitCode
          rw [List.foldl_cons, hstep, ← hz]
        rw [hfold, ih]
        have hmax : maxAbsChild (RunError.childExit c :: rest)
            = maxAbsChild rest := by
          rw [maxAbsChild, ← hc0, ← hz]
          exact max_eq_right (maxAbsChild_nonneg rest)
        have hother : hasOtherError (RunError.childExit c :: rest)
            = hasOtherError rest := by
          simp [hasOtherError]
        rw [hmax, hother]
      · -- the child failed, the accumulator becomes positive
        have hfold : realRunExitCode (RunError.childExit c :: rest)
            = max c0 (maxAbsChild rest) := by
          unfold realRunExitCode
          rw [List.foldl_cons, hstep]
          exact foldl_realRunStep_of_pos rest c0 hpos
        rw [hfold]
        have hmax : maxAbsChild (RunError.childExit c :: rest)
            = max c0 (maxAbsChild rest) := by
          rw [maxAbsChild, ← hc0]
        have hother : hasOtherError (RunError.childExit c :: rest)
            = hasOtherError rest := by
          simp [hasOtherError]
        rw [hmax, hother]
        by_cases h : hasOtherError rest = true
        · rw [if_pos h]
          have : max 1 (max c0 (maxAbsChild rest)) = max c0 (maxAbsChild rest) := by
            apply max_eq_right
            exact le_trans hpos (le_max_left _ _)
          rw [this]
        · rw [if_neg h]
    | other =>
      have hstep : realRunStep 0 RunError.other = 1 := rfl
      have hfold : realRunExitCode (RunError.other :: rest)
          = max 1 (maxAbsChild rest) := by
        unfold realRunExitCode
        rw [List.foldl_cons, hstep]
        exact foldl_realRunStep_of_pos rest 1 le_rfl
      have hother : hasOtherError (RunError.other :: rest) = true := by
        simp [hasOtherError]
      have hmax : maxAbsChild (RunError.other :: rest) = maxAbsChild rest := rfl
      rw [hfold, hother, if_pos rfl, hmax]

/-- C2: a child terminated by a signal is reported with a negative exit code;
on the error list holding exactly that child exit, executeTasks in run.go
aggregates to exit code 0 because it compares signed codes, while the RealRun
loop takes the absolute value and aggregates to 1 as the claim requires. -/
theorem c2_signal_exit_code_zero_bug :
    executeTasksExitCode [RunError.childExit (-1)] = 0
      ∧ realRunExitCode [RunError.childExit (-1)] = 1 := by
  exact ⟨rfl, rfl⟩

/-! ## C6: util task output modes -/

/-- TaskOutputMode from the util package: this snapshot defines exactly four
modes (full, none, hash-only, new-only). -/
inductive TaskOutputMode where
  | FullTaskOutput
  | NoTaskOutput
  | HashTaskOutput
  | NewTaskOutput
deriving DecidableEq, Repr

/-- FromTaskOutputModeString from the util package. The Go function returns a
mode together with an error; on a string outside the four known
representations it returns FullTaskOutput and an invalid-mode error. -/
def FromTaskOutputModeString (value : String) : TaskOutputMode × Option String :=
  if value = "full" then (TaskOutputMode.FullTaskOutput, none)
  else if value = "none" then (TaskOutputMode.NoTaskOutput, none)
  else if value = "hash-only" then (TaskOutputMode.HashTaskOutput, none)
  else if value = "new-only" then (TaskOutputMode.NewTaskOutput, none)
  else (TaskOutputMode.FullTaskOutput, some ("invalid task output mode: " ++ value))

/-- ToTaskOutputModeString from the util package: every one of the four enum
values has a string representation, so the error result is always none. -/
def ToTaskOutputModeString (value : TaskOutputMode) : String × Option String :=
  match value with
  | TaskOutputMode.FullTaskOutput => ("full", none)
  | TaskOutputMode.NoTaskOutput => ("none", none)
  | TaskOutputMode.HashTaskOutput => ("hash-only", none)
  | TaskOutputMode.NewTaskOutput => ("new-only", none)

/-- C6 counterexample: the claim requires FromTaskOutputModeString to succeed
on errors-only, but this snapshot rejects that string with an error and only
knows the four other modes. -/
theorem c6_errors_only_rejected :
    FromTaskOutputModeString "errors-only"
      = (TaskOutputMode.FullTaskOutput,
         some "invalid task output mode: errors-only") := by
  decide

/-- C6 amended: the four mode strings full, none, hash-only and new-only all
parse without error to pairwise distinct modes, and ToTaskOutputModeString
maps each mode back to its string; errors-only is rejected. -/
theorem c6_output_mode_round_trip :
    (∀ m : TaskOutputMode,
      FromTaskOutputModeString (ToTaskOutputModeString m).1 = (m, none))
    ∧ (["full", "none", "hash-only", "new-only"].map
        (fun s => (FromTaskOutputModeString s).1)).Nodup
    ∧ (∀ s ∈ ["full", "none", "hash-only", "new-only"],
        (FromTaskOutputModeString s).2 = none)
    ∧ (FromTaskOutputModeString "errors-only").2 ≠ none := by
  refine ⟨fun m => ?_, by decide, by decide, by decide⟩
  cases m <;> decide

/-! ## C8: fs TaskOutputs.Sort -/

/-- TaskOutputs from fs/package_deps_hash.go: the inclusion and exclusion
glob patterns of the outputs of a task. -/
structure TaskOutputs where
  Inclusions : List String
  Exclusions : List String
deriving DecidableEq, Repr

/-- The Go builtin copy: writes the first min(len dst, len src) elements of
src over the front of dst and leaves the rest of dst unchanged. -/
def goCopy (dst src : List String) : List String :=
  src.take dst.length ++ dst.drop (src.take dst.length).length

/-- TaskOutputs.Sort from fs/package_deps_hash.go: declares two nil slices,
copies the receiver fields into them with the Go builtin copy, sorts the two
slices and returns them. -/
def TaskOutputs.Sort (t : TaskOutputs) : TaskOutputs :=
  let inclusions := goCopy [] t.Inclusions
  let exclusions := goCopy [] t.Exclusions
  { Inclusions := sortStrings inclusions, Exclusions := sortStrings exclusions }

/-- C8: copying into a nil slice copies nothing, so Sort discards the
receiver contents; on inclusions b, a and exclusions d, c it returns two
empty lists instead of the sorted originals the claim (and the function
documentation) promise. -/
theorem c8_sort_discards_contents_bug :
    TaskOutputs.Sort { Inclusions := ["b", "a"], Exclusions := ["d", "c"] }
        = { Inclusions := [], Exclusions := [] }
      ∧ ({ Inclusions := [], Exclusions := [] } : TaskOutputs)
        ≠ { Inclusions := ["a", "b"], Exclusions := ["c", "d"] } := by
  exact ⟨rfl, by decide⟩

/-! ## C5: fs/package_deps_hash.go pipeline entry normalization -/

/-- strings.HasPrefix from the Go standard library, on the underlying
characters. -/
def strStartsWith (s p : String) : Bool := p.data.isPrefixOf s.data

/-- envPipelineDelimiter from fs/package_deps_hash.go. -/
def envPipelineDelimiter : String := "$"

/-- topologicalPipelineDelimiter from fs/package_deps_hash.go. -/
def topologicalPipelineDelimiter : String := "^"

/-- rawTask from fs/package_deps_hash.go: the JSON shape of one pipeline
entry before normalization. -/
structure rawTask where
  Outputs : Option (List String)
  Cache : Option Bool
  DependsOn : List String
  Inputs : List String
  OutputMode : TaskOutputMode
  Env : List String
  Persistent : Bool
deriving DecidableEq, Repr

/-- TaskDefinition from fs/package_deps_hash.go: the normalized pipeline
entry. -/
structure TaskDefinition where
  Outputs : TaskOutputs
  ShouldCache : Bool
  EnvVarDependencies : List String
  TopologicalDependencies : List String
  TaskDependencies : List String
  Inputs : List String
  OutputMode : TaskOutputMode
  Persistent : Bool
deriving DecidableEq, Repr

/-- The outputs loop of TaskDefinition.UnmarshalJSON: glob patterns that
begin with an exclamation mark become exclusions with the mark stripped, the
rest become inclusions, keeping relative order. -/
def splitOutputs : List String → List String × List String
  | [] => ([], [])
  | glob :: rest =>
    let p := splitOutputs rest
    if strStartsWith glob "!" then (p.1, glob.drop 1 :: p.2)
    else (glob :: p.1, p.2)

/-- The nil-handling of rawTask.Outputs in TaskDefinition.UnmarshalJSON. -/
def taskOutputsPair (task : rawTask) : List String × List String :=
  match task.Outputs with
  | none => ([], [])
  | some outputs => splitOutputs outputs

/-- The cache default of TaskDefinition.UnmarshalJSON: nil means true. -/
def taskShouldCache (task : rawTask) : Bool :=
  match task.Cache with
  | none => true
  | some b => b

/-- The three collections filled by the dependsOn loop of
TaskDefinition.UnmarshalJSON: the util.Set of env var names and the two
dependency slices in insertion order. -/
structure DependsOnAcc where
  envVarDependencies : List String
  topologicalDependencies : List String
  taskDependencies : List String
deriving DecidableEq, Repr

/-- One iteration of the dependsOn loop of TaskDefinition.UnmarshalJSON. A
delimiter is one character, so strings.TrimPrefix under the matching
strings.HasPrefix guard is String.drop 1. -/
def dependsOnStep (acc : DependsOnAcc) (dependency : String) : DependsOnAcc :=
  if strStartsWith dependency envPipelineDelimiter then
    { acc with envVarDependencies := (setAdd acc.envVarDependencies (dependency.drop 1)) }
  else if strStartsWith dependency topologicalPipelineDelimiter then
    { acc with topologicalDependencies := (acc.topologicalDependencies ++ [dependency.drop 1]) }
  else
    { acc with taskDependencies := (acc.taskDependencies ++ [dependency]) }

/-- The env loop shared by TaskDefinition.UnmarshalJSON (over env) and
TurboJSON.UnmarshalJSON (over globalEnv): a value with the env delimiter is a
hard error, the rest are added to the env var set. -/
def addEnvVarsFromEnvKey (s : List String) : List String → Except String (List String)
  | [] => Except.ok s
  | value :: rest =>
    if strStartsWith value envPipelineDelimiter then
      Except.error ("You specified \"" ++ value
        ++ "\" in the \"env\" key. You should not prefix your environment variables with \"$\"")
    else addEnvVarsFromEnvKey (setAdd s value) rest

/-- The TaskDefinition assembled at the end of TaskDefinition.UnmarshalJSON
once the env loop has succeeded with the final env var set. -/
def TaskDefinition.assemble (task : rawTask) (envVarDependencies : List String) :
    TaskDefinition :=
  { Outputs := { Inclusions := sortStrings (taskOutputsPair task).1,
                 Exclusions := sortStrings (taskOutputsPair task).2 },
    ShouldCache := taskShouldCache task,
    EnvVarDependencies := sortStrings envVarDependencies,
    TopologicalDependencies :=
      sortStrings (task.DependsOn.foldl dependsOnStep ⟨[], [], []⟩).topologicalDependencies,
    TaskDependencies :=
      sortStrings (task.DependsOn.foldl dependsOnStep ⟨[], [], []⟩).taskDependencies,
    Inputs := task.Inputs,
    OutputMode := task.OutputMode,
    Persistent := task.Persistent }

/-- TaskDefinition.UnmarshalJSON from fs/package_deps_hash.go, starting from
the decoded rawTask: the dependsOn loop always succeeds, the env loop may
fail, and on success the normalized definition is assembled. -/
def TaskDefinition.unmarshal (task : rawTask) : Except String TaskDefinition :=
  (addEnvVarsFromEnvKey
      (task.DependsOn.foldl dependsOnStep ⟨[], [], []⟩).envVarDependencies
      task.Env).map (TaskDefinition.assemble task)

/-- RemoteCacheOptions from fs/package_deps_hash.go. -/
structure RemoteCacheOptions where
  TeamID : String
  Signature : Bool
deriving DecidableEq, Repr

/-- rawTurboJSON from fs/package_deps_hash.go; the pipeline map is kept as an
association list. -/
structure rawTurboJSON where
  GlobalDependencies : List String
  GlobalEnv : List String
  Pipeline : List (String × TaskDefinition)
  RemoteCacheOptions : RemoteCacheOptions
deriving DecidableEq, Repr

/-- TurboJSON from fs/package_deps_hash.go. -/
structure TurboJSON where
  GlobalDeps : List String
  GlobalEnv : List String
  Pipeline : List (String × TaskDefinition)
  RemoteCacheOptions : RemoteCacheOptions
deriving DecidableEq, Repr

/-- The globalDependencies loop of TurboJSON.UnmarshalJSON: entries with the
env delimiter go, stripped and with a deprecation note, into the env var set;
the rest into the file dependency set. -/
def addGlobalDeps (envSet fileSet : List String) :
    List String → List String × List String
  | [] => (envSet, fileSet)
  | value :: rest =>
    if strStartsWith value envPipelineDelimiter then
      addGlobalDeps (setAdd envSet (value.drop 1)) fileSet rest
    else addGlobalDeps envSet (setAdd fileSet value) rest

/-- TurboJSON.UnmarshalJSON from fs/package_deps_hash.go, starting from the
decoded rawTurboJSON: the globalEnv loop may fail, then the
globalDependencies loop splits entries between the two sets. -/
def TurboJSON.unmarshal (raw : rawTurboJSON) : Except String TurboJSON :=
  (addEnvVarsFromEnvKey [] raw.GlobalEnv).map (fun envSet =>
    { GlobalEnv := sortStrings (addGlobalDeps envSet [] raw.GlobalDependencies).1,
      GlobalDeps := sortStrings (addGlobalDeps envSet [] raw.GlobalDependencies).2,
      Pipeline := raw.Pipeline,
      RemoteCacheOptions := raw.RemoteCacheOptions })

theorem dependsOnStep_of_env (acc : DependsOnAcc) (d : String)
    (h1 : strStartsWith d "$" = true) :
    dependsOnStep acc d
      = { acc with envVarDependencies := (setAdd acc.envVarDependencies (d.drop 1)) } := by
  simp [dependsOnStep, envPipelineDelimiter, h1]

theorem dependsOnStep_of_topological (acc : DependsOnAcc) (d : String)
    (h1 : strStartsWith d "$" = false) (h2 : strStartsWith d "^" = true) :
    dependsOnStep acc d
      = { acc with topologicalDependencies := (acc.topologicalDependencies ++ [d.drop 1]) } := by
  simp [dependsOnStep, envPipelineDelimiter, topologicalPipelineDelimiter, h1, h2]

theorem dependsOnStep_of_task (acc : DependsOnAcc) (d : String)
    (h1 : strStartsWith d "$" = false) (h2 : strStartsWith d "^" = false) :
    dependsOnStep acc d
      = { acc with taskDependencies := (acc.taskDependencies ++ [d]) } := by
  simp [dependsOnStep, envPipelineDelimiter, topologicalPipelineDelimiter, h1, h2]

theorem foldl_dependsOnStep_topological (l : List String) :
    ∀ acc : DependsOnAcc,
      (l.foldl dependsOnStep acc).topologicalDependencies
        = acc.topologicalDependencies
          ++ (l.filter (fun d => !strStartsWith d "$" && strStartsWith d "^")).map
              (fun d => d.drop 1) := by
  induction l with
  | nil => intro acc; simp
  | cons d rest ih =>
    intro acc
    rw [List.foldl_cons, List.filter_cons]
    by_cases h1 : strStartsWith d "$" = true
    · rw [dependsOnStep_of_env acc d h1, ih]
      simp [h1]
    · have h1f : strStartsWith d "$" = false := by simpa using h1
      by_cases h2 : strStartsWith d "^" = true
      · rw [dependsOnStep_of_topological acc d h1f h2, ih]
        simp [h1f, h2]
      · have h2f : strStartsWith d "^" = false := by simpa using h2
        rw [dependsOnStep_of_task acc d h1f h2f, ih]
        simp [h1f, h2f]

theorem foldl_dependsOnStep_taskDeps (l : List String) :
    ∀ acc : DependsOnAcc,
      (l.foldl dependsOnStep acc).taskDependencies
        = acc.taskDependencies
          ++ l.filter (fun d => !strStartsWith d "$" && !strStartsWith d "^") := by
  induction l with
  | nil => intro acc; simp
  | cons d rest ih =>
    intro acc
    rw [List.foldl_cons, List.filter_cons]
    by_cases h1 : strStartsWith d "$" = true
    · rw [dependsOnStep_of_env acc d h1, ih]
      simp [h1]
    · have h1f : strStartsWith d "$" = false := by simpa using h1
      by_cases h2 : strStartsWith d "^" = true
      · rw [dependsOnStep_of_topological acc d h1f h2, ih]
        simp [h1f, h2]
      · have h2f : strStartsWith d "^" = false := by simpa using h2
        rw [dependsOnStep_of_task acc d h1f h2f, ih]
        simp [h1f, h2f]

theorem foldl_dependsOnStep_env_mono (l : List String) :
    ∀ (acc : DependsOnAcc) (x : String), x ∈ acc.envVarDependencies →
      x ∈ (l.foldl dependsOnStep acc).envVarDependencies := by
  induction l with
  | nil => intro acc x hx; exact hx
  | cons d rest ih =>
    intro acc x hx
    rw [List.foldl_cons]
    apply ih
    by_cases h1 : strStartsWith d "$" = true
    · rw [dependsOnStep_of_env acc d h1]
      exact (mem_setAdd _ _ _).mpr (Or.inl hx)
    · have h1f : strStartsWith d "$" = false := by simpa using h1
      by_cases h2 : strStartsWith d "^" = true
      · rw [dependsOnStep_of_topological acc d h1f h2]
        exact hx
      · have h2f : strStartsWith d "^" = false := by simpa using h2
        rw [dependsOnStep_of_task acc d h1f h2f]
        exact hx

theorem foldl_dependsOnStep_env_mem (l : List String) :
    ∀ (acc : DependsOnAcc) (d : String), d ∈ l → strStartsWith d "$" = true →
      d.drop 1 ∈ (l.foldl dependsOnStep acc).envVarDependencies := by
  induction l with
  | nil => intro acc d hd; exact absurd hd (List.not_mem_nil d)
  | cons e rest ih =>
    intro acc d hd hdollar
    rw [List.foldl_cons]
    rcases List.mem_cons.mp hd with rfl | hmem
    · apply foldl_dependsOnStep_env_mono
      rw [dependsOnStep_of_env acc d hdollar]
      exact (mem_setAdd _ _ _).mpr (Or.inr rfl)
    · exact ih _ d hmem hdollar

theorem addEnvVars_ok_iff (l : List String) :
    ∀ s : List String,
      (∃ s2, addEnvVarsFromEnvKey s l = Except.ok s2)
        ↔ ∀ e ∈ l, strStartsWith e "$" = false := by
  induction l with
  | nil =>
    intro s
    constructor
    · intro _ e he; exact absurd he (List.not_mem_nil e)
    · intro _; exact ⟨s, rfl⟩
  | cons v rest ih =>
    intro s
    constructor
    · rintro ⟨s2, h2⟩ e he
      unfold addEnvVarsFromEnvKey at h2
      by_cases hv : strStartsWith v "$" = true
      · rw [if_pos (by simpa [envPipelineDelimiter] using hv)] at h2
        exact absurd h2 (by simp)
      · have hvf : strStartsWith v "$" = false := by simpa using hv
        rcases List.mem_cons.mp he with rfl | hmem
        · exact hvf
        · rw [if_neg (by simp [envPipelineDelimiter, hvf])] at h2
          exact (ih _).mp ⟨s2, h2⟩ e hmem
    · intro hall
      have hvf : strStartsWith v "$" = false := hall v (List.mem_cons_self v rest)
      obtain ⟨s2, h2⟩ := (ih (setAdd s v)).mpr
        (fun e he => hall e (List.mem_cons_of_mem v he))
      refine ⟨s2, ?_⟩
      unfold addEnvVarsFromEnvKey
      rw [if_neg (by simp [envPipelineDelimiter, hvf])]
      exact h2

theorem addEnvVars_mono (l : List String) :
    ∀ s s2 : List String, addEnvVarsFromEnvKey s l = Except.ok s2 →
      ∀ x ∈ s, x ∈ s2 := by
  induction l with
  | nil =>
    intro s s2 h x hx
    unfold addEnvVarsFromEnvKey at h
    cases h
    exact hx
  | cons v rest ih =>
    intro s s2 h x hx
    unfold addEnvVarsFromEnvKey at h
    by_cases hv : strStartsWith v envPipelineDelimiter = true
    · rw [if_pos hv] at h
      exact absurd h (by simp)
    · rw [if_neg hv] at h
      exact ih _ _ h x ((mem_setAdd _ _ _).mpr (Or.inl hx))

/-- C5: TaskDefinition.UnmarshalJSON sorts dependsOn entries into the three
normalized collections (caret entries become topological dependencies with
the caret stripped, dollar entries become env var dependencies with the
dollar stripped, everything else becomes a task dependency), and parsing
fails exactly when an env entry (or a globalEnv entry at the root) begins
with the dollar delimiter. -/
theorem c5_pipeline_normalization :
    (∀ task : rawTask,
      (∃ td, TaskDefinition.unmarshal task = Except.ok td)
        ↔ ∀ e ∈ task.Env, strStartsWith e "$" = false)
    ∧ (∀ (task : rawTask) (td : TaskDefinition),
      TaskDefinition.unmarshal task = Except.ok td →
        td.TopologicalDependencies
            = sortStrings ((task.DependsOn.filter
                (fun d => !strStartsWith d "$" && strStartsWith d "^")).map
                (fun d => d.drop 1))
          ∧ td.TaskDependencies
            = sortStrings (task.DependsOn.filter
                (fun d => !strStartsWith d "$" && !strStartsWith d "^"))
          ∧ ∀ d ∈ task.DependsOn, strStartsWith d "$" = true →
              d.drop 1 ∈ td.EnvVarDependencies)
    ∧ (∀ raw : rawTurboJSON,
      (∃ tj, TurboJSON.unmarshal raw = Except.ok tj)
        ↔ ∀ e ∈ raw.GlobalEnv, strStartsWith e "$" = false) := by
  refine ⟨fun task => ?_, fun task td h => ?_, fun raw => ?_⟩
  · constructor
    · rintro ⟨td, htd⟩
      unfold TaskDefinition.unmarshal at htd
      cases henv : addEnvVarsFromEnvKey
          ((task.DependsOn.foldl dependsOnStep ⟨[], [], []⟩).envVarDependencies)
          task.Env with
      | error e =>
        rw [henv] at htd
        exact absurd htd (by simp [Except.map])
      | ok s => exact (addEnvVars_ok_iff task.Env _).mp ⟨s, henv⟩
    · intro hall
      obtain ⟨s, hs⟩ := (addEnvVars_ok_iff task.Env
        ((task.DependsOn.foldl dependsOnStep ⟨[], [], []⟩).envVarDependencies)).mpr hall
      refine ⟨TaskDefinition.assemble task s, ?_⟩
      unfold TaskDefinition.unmarshal
      rw [hs]
      rfl
  · unfold TaskDefinition.unmarshal at h
    cases henv : addEnvVarsFromEnvKey
        ((task.DependsOn.foldl dependsOnStep ⟨[], [], []⟩).envVarDependencies)
        task.Env with
    | error e =>
      rw [henv] at h
      exact absurd h (by simp [Except.map])
    | ok s =>
      rw [henv] at h
      simp only [Except.map] at h
      have htd : TaskDefinition.assemble task s = td := by
        exact (Except.ok.injEq _ _).mp h
      subst htd
      refine ⟨?_, ?_, ?_⟩
      · show sortStrings
            (task.DependsOn.foldl dependsOnStep ⟨[], [], []⟩).topologicalDependencies
          = _
        rw [foldl_dependsOnStep_topological task.DependsOn ⟨[], [], []⟩]
        rfl
      · show sortStrings
            (task.DependsOn.foldl dependsOnStep ⟨[], [], []⟩).taskDependencies
          = _
        rw [foldl_dependsOnStep_taskDeps task.DependsOn ⟨[], [], []⟩]
        rfl
      · intro d hd hdollar
        have hin := foldl_dependsOnStep_env_mem task.DependsOn ⟨[], [], []⟩ d hd hdollar
        have hs2 := addEnvVars_mono task.Env _ _ henv _ hin
        show d.drop 1 ∈ sortStrings s
        exact (mem_sortStrings _ _).mpr hs2
  · constructor
    · rintro ⟨tj, htj⟩
      unfold TurboJSON.unmarshal at htj
      cases henv : addEnvVarsFromEnvKey [] raw.GlobalEnv with
      | error e =>
        rw [henv] at htj
        exact absurd htj (by simp [Except.map])
      | ok s => exact (addEnvVars_ok_iff raw.GlobalEnv []).mp ⟨s, henv⟩
    · intro hall
      obtain ⟨s, hs⟩ := (addEnvVars_ok_iff raw.GlobalEnv []).mpr hall
      refine ⟨{ GlobalEnv := sortStrings (addGlobalDeps s [] raw.GlobalDependencies).1,
                GlobalDeps := sortStrings (addGlobalDeps s [] raw.GlobalDependencies).2,
                Pipeline := raw.Pipeline,
                RemoteCacheOptions := raw.RemoteCacheOptions }, ?_⟩
      unfold TurboJSON.unmarshal
      rw [hs]
      rfl

/-- C5 witness: the normalization theorem applied to a concrete pipeline
entry with one caret, one dollar and one plain dependsOn entry. -/
theorem c5_pipeline_normalization_witness :
    TaskDefinition.unmarshal
        { Outputs := none, Cache := none,
          DependsOn := ["^build", "$FOO", "lint"], Inputs := [],
          OutputMode := TaskOutputMode.FullTaskOutput, Env := ["BAR"],
          Persistent := false }
      = Except.ok
        { Outputs := { Inclusions := [], Exclusions := [] },
          ShouldCache := true,
          EnvVarDependencies := ["BAR", "FOO"],
          TopologicalDependencies := ["build"],
          TaskDependencies := ["lint"],
          Inputs := [],
          OutputMode := TaskOutputMode.FullTaskOutput,
          Persistent := false }
    ∧ ["build"]
      = sortStrings (((["^build", "$FOO", "lint"] : List String).filter
          (fun d => !strStartsWith d "$" && strStartsWith d "^")).map
          (fun d => d.drop 1))
    ∧ ("$FOO").drop 1 ∈ (["BAR", "FOO"] : List String) := by
  have hok : TaskDefinition.unmarshal
      { Outputs := none, Cache := none,
        DependsOn := ["^build", "$FOO", "lint"], Inputs := [],
        OutputMode := TaskOutputMode.FullTaskOutput, Env := ["BAR"],
        Persistent := false }
    = Except.ok
      { Outputs := { Inclusions := [], Exclusions := [] },
        ShouldCache := true,
        EnvVarDependencies := ["BAR", "FOO"],
        TopologicalDependencies := ["build"],
        TaskDependencies := ["lint"],
        Inputs := [],
        OutputMode := TaskOutputMode.FullTaskOutput,
        Persistent := false } := by rfl
  have hmain := c5_pipeline_normalization.2.1 _ _ hok
  exact ⟨hok, hmain.1, hmain.2.2 "$FOO" (by decide) (by decide)⟩

/-! ## C10: run/dry_run.go taskSummary.toSinglePackageTask -/

/-- cache.ItemStatus. Modelled from the spec: the cache package struct is not
under src; the spec gives the dry-run cache state as local and remote
flags. -/
structure ItemStatus where
  Local : Bool
  Remote : Bool
deriving DecidableEq, Repr

/-- taskSummary from run/dry_run.go. -/
structure taskSummary where
  TaskID : String
  Task : String
  Package : String
  Hash : String
  CacheState : ItemStatus
  Command : String
  Outputs : List String
  ExcludedOutputs : List String
  LogFile : String
  Dir : String
  Dependencies : List String
  Dependents : List String
  ResolvedTaskDefinition : TaskDefinition
  ExpandedInputs : List (String × String)
  Framework : String
deriving DecidableEq, Repr

/-- singlePackageTaskSummary from run/dry_run.go: the same record without
the package, directory and task-id fields. -/
structure singlePackageTaskSummary where
  Task : String
  Hash : String
  CacheState : ItemStatus
  Command : String
  Outputs : List String
  ExcludedOutputs : List String
  LogFile : String
  Dependencies : List String
  Dependents : List String
  ResolvedTaskDefinition : TaskDefinition
  ExpandedInputs : List (String × String)
  Framework : String
deriving DecidableEq, Repr

/-- Everything after the first # mark of a character list, if any. -/
def afterHashMark : List Char → Option (List Char)
  | [] => none
  | c :: rest => if c = '#' then some rest else afterHashMark rest

/-- Modelled from the spec: util.StripPackageName (the util package is not
under src). A task id renders as pkg#task, so stripping the package keeps
what follows the # mark; a bare task name is returned unchanged. -/
def stripPackageName (taskID : String) : String :=
  match afterHashMark taskID.data with
  | some rest => String.mk rest
  | none => taskID

/-- Modelled from the spec: util.RootTaskTaskName (the util package is not
under src). Root-package task ids render as two slashes, the # mark and the
task name; that marker is stripped. -/
def rootTaskTaskName (taskID : String) : String :=
  if strStartsWith taskID "//#" then taskID.drop 3 else taskID

/-- taskSummary.toSinglePackageTask from run/dry_run.go: rebuild the two
dependency lists with package names stripped and copy the remaining fields.
The Go struct literal never assigns ExcludedOutputs, leaving its zero
value, the empty slice. -/
def taskSummary.toSinglePackageTask (ht : taskSummary) : singlePackageTaskSummary :=
  { Task := rootTaskTaskName ht.TaskID,
    Hash := ht.Hash,
    CacheState := ht.CacheState,
    Command := ht.Command,
    Outputs := ht.Outputs,
    ExcludedOutputs := [],
    LogFile := ht.LogFile,
    Dependencies := ht.Dependencies.map stripPackageName,
    Dependents := ht.Dependents.map stripPackageName,
    ResolvedTaskDefinition := ht.ResolvedTaskDefinition,
    ExpandedInputs := ht.ExpandedInputs,
    Framework := ht.Framework }

/-- C10: toSinglePackageTask preserves Hash, CacheState, Command, Outputs,
LogFile, ResolvedTaskDefinition, Framework and ExpandedInputs, strips the
package prefix from the task id and from every dependency and dependent
entry, and always returns an empty ExcludedOutputs list. -/
theorem c10_to_single_package_task :
    (∀ ht : taskSummary,
      ht.toSinglePackageTask.Hash = ht.Hash
      ∧ ht.toSinglePackageTask.CacheState = ht.CacheState
      ∧ ht.toSinglePackageTask.Command = ht.Command
      ∧ ht.toSinglePackageTask.Outputs = ht.Outputs
      ∧ ht.toSinglePackageTask.LogFile = ht.LogFile
      ∧ ht.toSinglePackageTask.ResolvedTaskDefinition = ht.ResolvedTaskDefinition
      ∧ ht.toSinglePackageTask.Framework = ht.Framework
      ∧ ht.toSinglePackageTask.ExpandedInputs = ht.ExpandedInputs
      ∧ ht.toSinglePackageTask.Task = rootTaskTaskName ht.TaskID
      ∧ ht.toSinglePackageTask.Dependencies = ht.Dependencies.map stripPackageName
      ∧ ht.toSinglePackageTask.Dependents = ht.Dependents.map stripPackageName
      ∧ ht.toSinglePackageTask.ExcludedOutputs = [])
    ∧ stripPackageName "pkg-a#build" = "build"
    ∧ rootTaskTaskName "//#build" = "build" := by
  refine ⟨fun ht => ?_, by decide, by decide⟩
  exact ⟨rfl, rfl, rfl, rfl, rfl, rfl, rfl, rfl, rfl, rfl, rfl, rfl⟩

/-! ## C7: the local filesystem cache fsCache.Put and WriteCacheMetaFile -/

/-- CacheMetadata from the cache package: the hash and duration sidecar
content. -/
structure CacheMetadata where
  Hash : String
  Duration : Int
deriving DecidableEq, Repr

/-- A filesystem effect of the local cache Put: ensuring a directory exists,
copying one repo file into the cache tree, or writing the metadata file in
one direct ioutil.WriteFile call (no temporary name, no rename). -/
inductive FsWrite where
  | ensureDir (path : String)
  | copyFile (src : String) (dst : String)
  | metaWrite (path : String) (meta : CacheMetadata)
deriving DecidableEq, Repr

/-- The destination path of a cache write. -/
def FsWrite.path : FsWrite → String
  | FsWrite.ensureDir p => p
  | FsWrite.copyFile _ dst => dst
  | FsWrite.metaWrite p _ => p

/-- The worker loop of fsCache.Put: each non-directory file is copied to
cacheDirectory/hash/file after its directory is ensured. -/
def putCopyWrites (cacheDirectory : String) (isDir : String → Bool)
    (hash : String) : List String → List FsWrite
  | [] => []
  | file :: rest =>
    if isDir file then putCopyWrites cacheDirectory isDir hash rest
    else
      FsWrite.ensureDir (cacheDirectory ++ "/" ++ hash ++ "/" ++ file)
        :: FsWrite.copyFile file (cacheDirectory ++ "/" ++ hash ++ "/" ++ file)
        :: putCopyWrites cacheDirectory isDir hash rest

/-- fsCache.Put from the cache package: copy the files into the per-hash
directory, then WriteCacheMetaFile writes the hash-meta.json sidecar holding
exactly the hash and the duration. -/
def fsCachePut (cacheDirectory : String) (isDir : String → Bool) (hash : String)
    (duration : Int) (files : List String) : List FsWrite :=
  putCopyWrites cacheDirectory isDir hash files
    ++ [FsWrite.metaWrite (cacheDirectory ++ "/" ++ hash ++ "-meta.json")
         { Hash := hash, Duration := duration }]

/-- The storage layout the claim asserts, from the spec words: some write of
the put targets a hash.tar.zst artifact under the cache root. -/
def putWritesTarZst (writes : List FsWrite) (cacheDirectory hash : String) : Prop :=
  ∃ w ∈ writes, FsWrite.path w = cacheDirectory ++ "/" ++ hash ++ ".tar.zst"

/-- C7 counterexample: on a put of one file with hash h1 the local cache
copies the file under cache/h1/ and writes the sidecar directly; no write
targets cache/h1.tar.zst, so the claimed artifact layout does not hold. -/
theorem c7_put_writes_no_tar_zst :
    fsCachePut "cache" (fun _ => false) "h1" 10 ["foo"]
      = [FsWrite.ensureDir "cache/h1/foo",
         FsWrite.copyFile "foo" "cache/h1/foo",
         FsWrite.metaWrite "cache/h1-meta.json" { Hash := "h1", Duration := 10 }]
    ∧ ¬ putWritesTarZst (fsCachePut "cache" (fun _ => false) "h1" 10 ["foo"])
        "cache" "h1" := by
  constructor
  · rfl
  · unfold putWritesTarZst
    decide

/-- C7 amended: every put copies exactly the non-directory files of the
request to cacheDirectory/hash/file and finishes with one direct write of
the cacheDirectory/hash-meta.json sidecar containing exactly the request
hash and duration; nothing is written to a temporary name and nothing is
renamed. -/
theorem c7_fs_cache_put_layout (cacheDirectory : String) (isDir : String → Bool)
    (hash : String) (duration : Int) (files : List String) :
    fsCachePut cacheDirectory isDir hash duration files
      = (files.filter (fun f => !isDir f)).flatMap
          (fun f => [FsWrite.ensureDir (cacheDirectory ++ "/" ++ hash ++ "/" ++ f),
                     FsWrite.copyFile f (cacheDirectory ++ "/" ++ hash ++ "/" ++ f)])
        ++ [FsWrite.metaWrite (cacheDirectory ++ "/" ++ hash ++ "-meta.json")
             { Hash := hash, Duration := duration }] := by
  unfold fsCachePut
  congr 1
  induction files with
  | nil => rfl
  | cons file rest ih =>
    rw [putCopyWrites, List.filter_cons]
    by_cases hd : isDir file = true
    · rw [if_pos hd, ih]
      simp [hd]
    · have hdf : isDir file = false := by simpa using hd
      rw [if_neg (by simp [hdf]), ih]
      simp [hdf]

/-! ## C9: cache asyncCache -/

/-- cacheRequest from the cache package: one queued put request. -/
structure cacheRequest where
  target : String
  key : String
  duration : Int
  files : List String
deriving DecidableEq, Repr

/-- The queue of an asyncCache, modelled sequentially: Put appends to the
queue, the workers drain it. -/
structure asyncCacheState where
  requests : List cacheRequest
deriving DecidableEq, Repr

/-- asyncCache.Put: enqueue the request on the channel and return nil; the
wrapped cache is not consulted at all on this path. -/
def asyncCachePut (c : asyncCacheState) (target key : String) (duration : Int)
    (files : List String) : asyncCacheState × Except String Unit :=
  ({ requests := c.requests
      ++ [{ target := target, key := key, duration := duration, files := files }] },
   Except.ok ())

/-- The worker loop asyncCache.run, sequentially: each queued request is
handed to the wrapped cache Put and the returned error is dropped on the
floor. -/
def asyncCacheRun (realPut : cacheRequest → Except String Unit)
    (pending : List cacheRequest) : List (cacheRequest × Except String Unit) :=
  pending.map (fun r => (r, realPut r))

/-- asyncCache.Shutdown, sequentially: close the channel and wait for the
workers, so exactly the queued requests have been handed to the wrapped
cache when it returns. -/
def asyncCacheShutdown (realPut : cacheRequest → Except String Unit)
    (c : asyncCacheState) : List cacheRequest :=
  (asyncCacheRun realPut c.requests).map Prod.fst

/-- C9: Put returns nil for every request and every wrapped cache, including
one whose Put always fails; the worker hands each queued request to the
wrapped cache and discards the result; Shutdown covers exactly the enqueued
requests in order. -/
theorem c9_async_cache_put_never_fails
    (realPut : cacheRequest → Except String Unit) (c : asyncCacheState)
    (target key : String) (duration : Int) (files : List String) :
    (asyncCachePut c target key duration files).2 = Except.ok ()
    ∧ asyncCacheShutdown realPut (asyncCachePut c target key duration files).1
      = c.requests
        ++ [{ target := target, key := key, duration := duration, files := files }]
    ∧ (asyncCacheRun realPut c.requests).map Prod.snd = c.requests.map realPut := by
  refine ⟨rfl, ?_, ?_⟩
  · show ((asyncCachePut c target key duration files).1.requests.map
        (fun r => (r, realPut r))).map Prod.fst = _
    rw [List.map_map]
    have hid : (Prod.fst ∘ fun r : cacheRequest => (r, realPut r)) = id := rfl
    rw [hid, List.map_id]
    rfl
  · unfold asyncCacheRun
    simp

/-! ## C3: builder-time validation of persistent tasks -/

/-- Modelled from the spec: the task engine builder (the core package) is not
under src, only its integration test with the expected error output. A task
graph is a list of dependency edges (dependent, dependency) over task ids,
with the persistent flag of each resolved task definition. -/
structure TaskGraphSpec where
  edges : List (String × String)
  persistent : String → Bool

/-- Modelled from the spec: the persistent-rule configuration error, naming
both endpoints of the offending edge as in the integration test output. -/
def persistentErrorMessage (dependency dependent : String) : String :=
  "Invalid persistent task configuration:\n\"" ++ dependency
    ++ "\" is a persistent task, \"" ++ dependent ++ "\" cannot depend on it"

/-- Modelled from the spec: builder-time validation of the persistent rule;
the first edge pointing into a persistent task is a configuration error. -/
def validatePersistentDependencies (g : TaskGraphSpec) : Except String Unit :=
  match g.edges.find? (fun e => g.persistent e.2) with
  | some e => Except.error (persistentErrorMessage e.2 e.1)
  | none => Except.ok ()

/-- Modelled from the spec: a run validates the graph while preparing the
engine, before executing any task; a validation error aborts the run with
exit code 1 and executes nothing. -/
def runBuildTasks (g : TaskGraphSpec) (schedule : List String) :
    List String × Int :=
  match validatePersistentDependencies g with
  | Except.error _ => ([], 1)
  | Except.ok _ => (schedule, 0)

/-- C3: whenever some edge of the task graph points into a persistent task,
graph validation fails with an error naming both endpoints of an offending
edge, no task is executed, and the run exits non-zero. -/
theorem c3_persistent_dependency_rejected (g : TaskGraphSpec)
    (schedule : List String) (e : String × String)
    (hmem : e ∈ g.edges) (hpers : g.persistent e.2 = true) :
    (∃ e2 ∈ g.edges, g.persistent e2.2 = true
      ∧ validatePersistentDependencies g
          = Except.error (persistentErrorMessage e2.2 e2.1))
    ∧ (runBuildTasks g schedule).1 = []
    ∧ (runBuildTasks g schedule).2 ≠ 0 := by
  obtain ⟨e2, hfind⟩ : ∃ e2, g.edges.find? (fun e => g.persistent e.2) = some e2 := by
    cases hf : g.edges.find? (fun e => g.persistent e.2) with
    | none =>
      exact absurd hpers (by simpa using List.find?_eq_none.mp hf e hmem)
    | some e2 => exact ⟨e2, rfl⟩
  have hmem2 : e2 ∈ g.edges := List.mem_of_find?_eq_some hfind
  have hpers2 : g.persistent e2.2 = true := by
    simpa using List.find?_some hfind
  have hval : validatePersistentDependencies g
      = Except.error (persistentErrorMessage e2.2 e2.1) := by
    unfold validatePersistentDependencies
    rw [hfind]
  refine ⟨⟨e2, hmem2, hpers2, hval⟩, ?_, ?_⟩
  · unfold runBuildTasks
    rw [hval]
  · unfold runBuildTasks
    rw [hval]
    simp

/-- The persistent_dependencies/8-topological-with-extra scenario: build
depends topologically on build, pkg-b#build depends on the persistent
pkg-z#dev. -/
def c3Graph : TaskGraphSpec :=
  { edges := [("app-a#build", "pkg-a#build"), ("pkg-a#build", "pkg-b#build"),
              ("pkg-b#build", "pkg-z#dev")],
    persistent := fun t => decide (t = "pkg-z#dev") }

/-- C3 witness: on the integration-test graph the validation error names
pkg-z#dev and pkg-b#build and the run exits 1 without running any task. -/
theorem c3_persistent_dependency_rejected_witness :
    ("pkg-b#build", "pkg-z#dev") ∈ c3Graph.edges
    ∧ c3Graph.persistent "pkg-z#dev" = true
    ∧ validatePersistentDependencies c3Graph
        = Except.error ("Invalid persistent task configuration:\n\"pkg-z#dev\""
            ++ " is a persistent task, \"pkg-b#build\" cannot depend on it")
    ∧ runBuildTasks c3Graph ["app-a#build", "pkg-a#build", "pkg-b#build"]
        = ([], 1) := by
  have h := c3_persistent_dependency_rejected c3Graph
    ["app-a#build", "pkg-a#build", "pkg-b#build"]
    ("pkg-b#build", "pkg-z#dev") (by decide) (by decide)
  refine ⟨by decide, by decide, by rfl, ?_⟩
  have h1 := h.2.1
  have h2 := h.2.2
  unfold runBuildTasks at h1 ⊢
  rw [(by rfl : validatePersistentDependencies c3Graph
    = Except.error ("Invalid persistent task configuration:\n\"pkg-z#dev\""
        ++ " is a persistent task, \"pkg-b#build\" cannot depend on it"))]

/-! ## C4: restoring a cache artifact refuses path traversal -/

/-- A tar entry: the name recorded in the archive and the file contents. -/
structure TarEntry where
  name : String
  contents : String
deriving DecidableEq, Repr

/-- Split a character list at slashes into path components. -/
def splitOnSlash : List Char → List String
  | [] => [""]
  | c :: rest =>
    let r := splitOnSlash rest
    if c = '/' then "" :: r
    else
      match r with
      | [] => [String.mk [c]]
      | s :: tail => String.mk (c :: s.data) :: tail

/-- Resolve dot and dot-dot components of an entry name against the
components already accepted (held reversed); none when the walk steps above
the anchor. -/
def normalizeEntryName (acc : List String) : List String → Option (List String)
  | [] => some acc.reverse
  | c :: rest =>
    if c = "" ∨ c = "." then normalizeEntryName acc rest
    else if c = ".." then
      match acc with
      | [] => none
      | _ :: accRest => normalizeEntryName accRest rest
    else normalizeEntryName (c :: acc) rest

/-- The normalized anchor-relative components of a tar entry name, or none
when the name escapes the anchor. -/
def checkEntryName (name : String) : Option (List String) :=
  normalizeEntryName [] (splitOnSlash name.data)

/-- Look up a file by its absolute path components. -/
def fsLookup : List (List String × String) → List String → Option String
  | [], _ => none
  | e :: rest, p => if e.1 = p then some e.2 else fsLookup rest p

/-- Write a file at an absolute path, shadowing any previous contents. -/
def fsWrite (fs : List (List String × String)) (p : List String) (c : String) :
    List (List String × String) :=
  (p, c) :: fs

/-- Whether a path lies under the anchor directory. -/
def isUnderAnchor (anchor p : List String) : Bool := anchor.isPrefixOf p

/-- Modelled from the spec: restoreTar (cli/internal/cache) is not under src,
only its test. Entries are processed in order; an entry whose normalized
name escapes the anchor is a fatal cache-integrity error that stops the
restore; a valid entry is written at the anchor joined with its normalized
components. The filesystem reached so far is returned together with either
the restored names or the error. -/
def restoreTar (anchor : List String) :
    List TarEntry → List (List String × String) →
      List (List String × String) × Except String (List String)
  | [], fs => (fs, Except.ok [])
  | entry :: rest, fs =>
    match checkEntryName entry.name with
    | none =>
      (fs, Except.error ("tar attempts to write outside of directory: " ++ entry.name))
    | some rel =>
      ((restoreTar anchor rest (fsWrite fs (anchor ++ rel) entry.contents)).1,
       (restoreTar anchor rest (fsWrite fs (anchor ++ rel) entry.contents)).2.map
         (fun names => entry.name :: names))

theorem fsLookup_fsWrite_ne (fs : List (List String × String))
    (p q : List String) (c : String) (h : q ≠ p) :
    fsLookup (fsWrite fs q c) p = fsLookup fs p := by
  show (if q = p then some c else fsLookup fs p) = fsLookup fs p
  rw [if_neg h]

theorem restoreTar_outside_anchor (anchor : List String) (entries : List TarEntry) :
    ∀ (fs : List (List String × String)) (p : List String),
      isUnderAnchor anchor p = false →
      fsLookup (restoreTar anchor entries fs).1 p = fsLookup fs p := by
  induction entries with
  | nil => intro fs p _; rfl
  | cons entry rest ih =>
    intro fs p hout
    cases hchk : checkEntryName entry.name with
    | none =>
      show fsLookup
          (match checkEntryName entry.name with
            | none =>
              (fs, Except.error
                ("tar attempts to write outside of directory: " ++ entry.name))
            | some rel =>
              ((restoreTar anchor rest (fsWrite fs (anchor ++ rel) entry.contents)).1,
               (restoreTar anchor rest
                   (fsWrite fs (anchor ++ rel) entry.contents)).2.map
                 (fun names => entry.name :: names))).1 p
        = fsLookup fs p
      rw [hchk]
    | some rel =>
      have hne : anchor ++ rel ≠ p := by
        intro hcontra
        have hpre : isUnderAnchor anchor p = true := by
          unfold isUnderAnchor
          rw [← hcontra]
          exact List.isPrefixOf_iff_prefix.mpr (List.prefix_append anchor rel)
        rw [hpre] at hout
        exact absurd hout (by simp)
      have hfs1 : (restoreTar anchor (entry :: rest) fs).1
          = (restoreTar anchor rest (fsWrite fs (anchor ++ rel) entry.contents)).1 := by
        show (match checkEntryName entry.name with
            | none =>
              (fs, Except.error
                ("tar attempts to write outside of directory: " ++ entry.name))
            | some rel =>
              ((restoreTar anchor rest (fsWrite fs (anchor ++ rel) entry.contents)).1,
               (restoreTar anchor rest
                   (fsWrite fs (anchor ++ rel) entry.contents)).2.map
                 (fun names => entry.name :: names))).1
          = (restoreTar anchor rest (fsWrite fs (anchor ++ rel) entry.contents)).1
        rw [hchk]
      rw [hfs1, ih _ p hout, fsLookup_fsWrite_ne fs p (anchor ++ rel) entry.contents hne]

theorem restoreTar_escape_errors (anchor : List String) (entries : List TarEntry) :
    ∀ fs : List (List String × String),
      (∃ e ∈ entries, checkEntryName e.name = none) →
      ∃ msg, (restoreTar anchor entries fs).2 = Except.error msg := by
  induction entries with
  | nil =>
    intro fs h
    obtain ⟨e, he, _⟩ := h
    exact absurd he (List.not_mem_nil e)
  | cons entry rest ih =>
    intro fs h
    cases hchk : checkEntryName entry.name with
    | none =>
      refine ⟨"tar attempts to write outside of directory: " ++ entry.name, ?_⟩
      show (match checkEntryName entry.name with
          | none =>
            (fs, Except.error
              ("tar attempts to write outside of directory: " ++ entry.name))
          | some rel =>
            ((restoreTar anchor rest (fsWrite fs (anchor ++ rel) entry.contents)).1,
             (restoreTar anchor rest
                 (fsWrite fs (anchor ++ rel) entry.contents)).2.map
               (fun names => entry.name :: names))).2
        = Except.error ("tar attempts to write outside of directory: " ++ entry.name)
      rw [hchk]
    | some rel =>
      have hrest : ∃ e ∈ rest, checkEntryName e.name = none := by
        obtain ⟨e, he, hn⟩ := h
        rcases List.mem_cons.mp he with rfl | hmem
        · rw [hchk] at hn; exact absurd hn (by simp)
        · exact ⟨e, hmem, hn⟩
      obtain ⟨msg, hmsg⟩ := ih (fsWrite fs (anchor ++ rel) entry.contents) hrest
      refine ⟨msg, ?_⟩
      show (match checkEntryName entry.name with
          | none =>
            (fs, Except.error
              ("tar attempts to write outside of directory: " ++ entry.name))
          | some rel =>
            ((restoreTar anchor rest (fsWrite fs (anchor ++ rel) entry.contents)).1,
             (restoreTar anchor rest
                 (fsWrite fs (anchor ++ rel) entry.contents)).2.map
               (fun names => entry.name :: names))).2
        = Except.error msg
      rw [hchk]
      show (restoreTar anchor rest (fsWrite fs (anchor ++ rel) entry.contents)).2.map
          (fun names => entry.name :: names) = Except.error msg
      rw [hmsg]
      rfl

/-- C4: if any entry of the archive escapes the restore anchor, restoreTar
returns an error, and no path outside the anchor is created or overwritten,
so a pre-existing file at the escaped destination keeps its contents. -/
theorem c4_restore_tar_path_escape (anchor : List String)
    (fs : List (List String × String)) (entries : List TarEntry)
    (hesc : ∃ e ∈ entries, checkEntryName e.name = none) :
    (∃ msg, (restoreTar anchor entries fs).2 = Except.error msg)
    ∧ ∀ p : List String, isUnderAnchor anchor p = false →
        fsLookup (restoreTar anchor entries fs).1 p = fsLookup fs p := by
  exact ⟨restoreTar_escape_errors anchor entries fs hesc,
    fun p hp => restoreTar_outside_anchor anchor entries fs p hp⟩

/-- C4 witness: restoring the invalid tar of the test (one entry named
dot-dot slash some-file) under root/repo fails and the pre-existing file
root/some-file keeps its contents. -/
theorem c4_restore_tar_path_escape_witness :
    checkEntryName "../some-file" = none
    ∧ (∃ msg, (restoreTar ["root", "repo"]
          [{ name := "../some-file", contents := "overwrite" }]
          [(["root", "some-file"], "important-data")]).2
        = Except.error msg)
    ∧ fsLookup (restoreTar ["root", "repo"]
          [{ name := "../some-file", contents := "overwrite" }]
          [(["root", "some-file"], "important-data")]).1
         ["root", "some-file"]
      = some "important-data" := by
  have h := c4_restore_tar_path_escape ["root", "repo"]
    [(["root", "some-file"], "important-data")]
    [{ name := "../some-file", contents := "overwrite" }]
    ⟨{ name := "../some-file", contents := "overwrite" },
      List.mem_singleton.mpr rfl, by decide⟩
  refine ⟨by decide, h.1, ?_⟩
  have hout : isUnderAnchor ["root", "repo"] ["root", "some-file"] = false := by
    decide
  rw [h.2 ["root", "some-file"] hout]
  decide

end Spec2Proof
